import Mathlib

set_option maxHeartbeats 1000000
set_option maxRecDepth 4000

namespace Kamstrup

/-!
Shallow embedding of the protocol core of `src/kamstrup2mqtt/parser.py`:
the CRC-16 checksum engine (`crc_1021`), the byte-stuffing codec used by
`send`/`recv`, the request framing, the register decoder
(`readparameter`), the parameter registry and the transaction loop
(`run`).  Machine bytes are modelled as `Nat`; Python floats are
modelled as exact rationals.
-/

/-! ## Checksum engine (`crc_1021`) -/

/-- One iteration of the inner `while (mask > 0)` loop of `crc_1021`:
`reg <<= 1`, shift in one message bit (`reg |= 1` when `byte & mask`
is set), and reduce by the polynomial when bit 16 overflows
(`reg &= 0xffff; reg ^= poly`). -/
def crcStepMask (byte reg mask : Nat) : Nat :=
  let reg1 := reg <<< 1
  let reg2 := if byte &&& mask ≠ 0 then reg1 ||| 1 else reg1
  if reg2 &&& 0x10000 ≠ 0 then (reg2 &&& 0xffff) ^^^ 0x1021 else reg2

/-- The mask values taken by `mask` in the inner loop (`0x80` down to `1`). -/
def crcMasks : List Nat := [0x80, 0x40, 0x20, 0x10, 0x08, 0x04, 0x02, 0x01]

/-- Body of the `for byte in message` loop of `crc_1021`. -/
def crcByte (reg byte : Nat) : Nat :=
  crcMasks.foldl (fun r mask => crcStepMask byte r mask) reg

/-- `crc_1021(message)` from `parser.py`: CCITT polynomial `0x1021`,
non-reflected, register initialised to 0. -/
def crc_1021 (message : List Nat) : Nat :=
  message.foldl crcByte 0

/-- The overflow reduction step shared by every bit iteration. -/
def crcReduce (t : Nat) : Nat :=
  if t &&& 0x10000 ≠ 0 then (t &&& 0xffff) ^^^ 0x1021 else t

/-! ## Byte-stuffing codec -/

/-- `escapes` from `parser.py`: byte values which must be escaped before
transmission. -/
def escapes : List Nat := [0x06, 0x0d, 0x1b, 0x40, 0x80]

/-- The escaping loop of `send`: each reserved byte becomes the pair
`0x1b, byte ^ 0xff`; every other byte passes through unchanged. -/
def escapeBytes : List Nat → List Nat
  | [] => []
  | byte :: rest =>
    if byte ∈ escapes then 0x1b :: (byte ^^^ 0xff) :: escapeBytes rest
    else byte :: escapeBytes rest

/-- The unescaping loop of `recv` over indices `1 ≤ i < len - 1` of the raw
frame: on `0x1b` consume the partner byte and emit it XOR `0xff`, otherwise
emit the byte literally.  Element reads are bounds-checked: an index outside
the buffer (a Python `IndexError`) would yield `none`. -/
def recvUnescape (receivedMessage : List Nat) (i : Nat) : Option (List Nat) :=
  if h : i < receivedMessage.length - 1 then
    match receivedMessage[i]? with
    | none => none
    | some b =>
      if b = 0x1b then
        match receivedMessage[i + 1]? with
        | none => none
        | some v => (recvUnescape receivedMessage (i + 2)).map fun rest => (v ^^^ 0xff) :: rest
      else (recvUnescape receivedMessage (i + 1)).map fun rest => b :: rest
  else some []
termination_by receivedMessage.length - i
decreasing_by
  all_goals omega

/-- The same unescape pass, expressed on the suffix of the raw frame that
starts at the loop index (the final element plays the terminator's role and
is excluded). -/
def unescapeTail : List Nat → List Nat
  | [] => []
  | [_] => []
  | b :: v :: rest =>
    if b = 0x1b then (v ^^^ 0xff) :: unescapeTail rest
    else b :: unescapeTail (v :: rest)

/-! ## Request framing (`send`) -/

/-- `send(prefix, msg)` from `parser.py`, as the byte sequence written to the
serial port: append two zero placeholder bytes, checksum the extended
message, overwrite the placeholders with the checksum (`message[-2]` high
byte, `message[-1]` low byte), then emit the prefix byte, the escaped
message, and the terminator `0x0d`.  The prefix byte is emitted before the
escaping loop and is never escaped. -/
def send (pfx : Nat) (msg : List Nat) : List Nat :=
  let message := msg ++ [0, 0]
  let checksum := crc_1021 message
  let message1 := message.set (message.length - 2) (checksum >>> 8)
  let message2 := message1.set (message1.length - 1) (checksum &&& 0xff)
  (pfx :: escapeBytes message2) ++ [0x0d]

/-- The request frame `readparameter` sends for a register address: prefix
`0x80` and the five-byte body `0x3f, 0x10, 0x01, addr_hi, addr_lo`. -/
def readparameterRequest (parameter : Nat) : List Nat :=
  send 0x80 [0x3f, 0x10, 0x01, parameter >>> 8, parameter &&& 0xff]

/-- Modelled from the spec's words for claim C5 (the code builds a different
body): a request whose body is the FOUR bytes
`[function][sub-function][addr_hi][addr_lo]`, checksummed over the body plus
two zero placeholder bytes, escaped, and wrapped in `0x80 … 0x0d`. -/
def specRequestFourByteBody (parameter : Nat) : List Nat :=
  let body := [0x3f, 0x10, parameter >>> 8, parameter &&& 0xff]
  let checksum := crc_1021 (body ++ [0, 0])
  (0x80 :: escapeBytes (body ++ [checksum >>> 8, checksum &&& 0xff])) ++ [0x0d]

/-! ## Parameter registry -/

/-- `GENERIC_PARAMS` from `parser.py`, in source order (Python dicts keep
insertion order). -/
def GENERIC_PARAMS : List (String × Nat) :=
  [("energy", 0x3C), ("power", 0x50), ("temp1", 0x56), ("temp2", 0x57),
   ("tempdiff", 0x59), ("flow", 0x4A), ("volume", 0x44), ("minflow_m", 0x8D),
   ("maxflow_m", 0x8B), ("minflowDate_m", 0x8C), ("maxflowDate_m", 0x8A),
   ("minpower_m", 0x91), ("maxpower_m", 0x8F), ("avgtemp1_m", 0x95),
   ("avgtemp2_m", 0x96), ("minpowerdate_m", 0x90), ("maxpowerdate_m", 0x8E),
   ("minflow_y", 0x7E), ("maxflow_y", 0x7C), ("minflowdate_y", 0x7D),
   ("maxflowdate_y", 0x7B), ("minpower_y", 0x82), ("maxpower_y", 0x80),
   ("avgtemp1_y", 0x92), ("avgtemp2_y", 0x93), ("minpowerdate_y", 0x81),
   ("maxpowerdate_y", 0x7F), ("temp1xm3", 0x61), ("temp2xm3", 0x6E),
   ("infoevent", 0x71), ("hourcounter", 0x3EC)]

/-- `VERSION_OVERRIDES` from `parser.py`: every listed version has an empty
override table. -/
def VERSION_OVERRIDES : List (String × List (String × Nat)) :=
  [("402", []), ("403", []), ("603", [])]

/-- Python `dict` assignment `d[k] = v`: overwrite in place when the key is
present (keeping its position), append otherwise. -/
def dictInsert {α : Type} : List (String × α) → String → α → List (String × α)
  | [], k, v => [(k, v)]
  | (k', v') :: rest, k, v =>
    if k' = k then (k', v) :: rest else (k', v') :: dictInsert rest k v

/-- Python `dict.update`: apply every override entry in order. -/
def dictUpdate {α : Type} (base : List (String × α)) (overrides : List (String × α)) :
    List (String × α) :=
  overrides.foldl (fun acc kv => dictInsert acc kv.1 kv.2) base

/-- `_param_map_for_version(version)` from `parser.py`: fall back to "402"
for a missing or falsy (empty) version, look the version up in
`VERSION_OVERRIDES`, and merge those overrides over a copy of
`GENERIC_PARAMS`. -/
def param_map_for_version (version : Option String) : List (String × Nat) :=
  let version := match version with
    | none => "402"
    | some s => if s = "" then "402" else s
  let overrides := (VERSION_OVERRIDES.lookup version).getD []
  dictUpdate GENERIC_PARAMS overrides

/-! ## Parameter specifiers and name resolution -/

/-- A parameter specifier as `run` receives it: a string (name, or numeric
text) or an integer register code. -/
inductive PSpec where
  | str (s : String)
  | int (n : Nat)
deriving DecidableEq

/-- The whitespace characters removed by Python `str.strip()` (ASCII). -/
def pyIsSpace (c : Char) : Bool :=
  c == ' ' || c == '\t' || c == '\n' || c == '\r' || c == '\x0b' || c == '\x0c'

/-- Python `str.strip()` on the character list (ASCII whitespace). -/
def pyStrip (l : List Char) : List Char :=
  ((l.dropWhile pyIsSpace).reverse.dropWhile pyIsSpace).reverse

/-- `p.startswith("0x")`. -/
def startsWith0x : List Char → Bool
  | '0' :: 'x' :: _ => true
  | _ => false

/-- An ASCII decimal digit. -/
def isAsciiDigit (c : Char) : Bool :=
  48 ≤ c.toNat && c.toNat ≤ 57

/-- Python `str.isdigit()` restricted to ASCII: nonempty, all digits. -/
def pyIsDigit (l : List Char) : Bool :=
  !l.isEmpty && l.all isAsciiDigit

/-- Value of one hex digit (`0-9`, `a-f`, `A-F`). -/
def hexDigitVal (c : Char) : Option Nat :=
  if 48 ≤ c.toNat && c.toNat ≤ 57 then some (c.toNat - 48)
  else if 97 ≤ c.toNat && c.toNat ≤ 102 then some (c.toNat - 87)
  else if 65 ≤ c.toNat && c.toNat ≤ 70 then some (c.toNat - 55)
  else none

/-- Big-endian accumulation of hex digits; any non-digit poisons the
parse. -/
def parseHexDigits (l : List Char) : Option Nat :=
  l.foldl
    (fun acc c =>
      match acc, hexDigitVal c with
      | some a, some d => some (16 * a + d)
      | _, _ => none)
    (some 0)

/-- Big-endian value of a decimal digit string. -/
def decimalVal (l : List Char) : Nat :=
  l.foldl (fun a c => 10 * a + (c.toNat - 48)) 0

/-- Modelled behaviour of Python `int(p, 0)` on the strings that reach it in
`_resolve_parameter_code` (those starting with `0x` or all-digits): hex
digits after the `0x`, or a decimal literal — where a leading zero is only
legal when the whole literal is zeros.  Python's underscore-separator
literal syntax is not modelled.  `none` models a `ValueError`. -/
def intBase0 : List Char → Option Nat
  | '0' :: 'x' :: rest => if rest.isEmpty then none else parseHexDigits rest
  | l =>
    if pyIsDigit l then
      match l with
      | '0' :: rest => if rest.all (fun c => c == '0') then some 0 else none
      | _ => some (decimalVal l)
    else none

/-- `_resolve_parameter_code` from `parser.py`: integers pass through;
strings are stripped, parsed numerically when they look numeric (falling
back to a name lookup on a parse error), and otherwise looked up as names in
the parameter map.  `none` is the logged-and-skipped failure. -/
def resolveParameterCode (pm : List (String × Nat)) (parameter : PSpec) : Option Nat :=
  match parameter with
  | .int n => some n
  | .str s =>
    let p := pyStrip s.toList
    if startsWith0x p || pyIsDigit p then
      match intBase0 p with
      | some v => some v
      | none => pm.lookup (String.mk p)
    else pm.lookup (String.mk p)

/-- One hex digit rendered as Python's lowercase `hex()` does. -/
def hexDigitCh (d : Nat) : Char :=
  if d < 10 then Char.ofNat (48 + d) else Char.ofNat (87 + d)

/-- The digits of Python `hex(n)` after the `0x`. -/
def hexChars (n : Nat) : List Char :=
  if h : n < 16 then [hexDigitCh n]
  else hexChars (n / 16) ++ [hexDigitCh (n % 16)]
termination_by n
decreasing_by
  exact Nat.div_lt_self (by omega) (by norm_num)

/-- Python `hex(n)` for a nonnegative register code. -/
def pyHex (n : Nat) : String :=
  String.mk ('0' :: 'x' :: hexChars n)

/-! ## Register decoding (`readparameter`) and the transaction loop (`run`) -/

/-- The mantissa loop of `readparameter`:
`for i in range(0, msg[5]): value <<= 8; value |= msg[i + 7]`, with
bounds-checked element access (`.error ()` models an uncaught Python
`IndexError`). -/
def mantissaLoop (msg : List Nat) : Nat → Nat → Nat → Except Unit Nat
  | v, _, 0 => .ok v
  | v, i, k + 1 =>
    match msg[i + 7]? with
    | none => .error ()
    | some b => mantissaLoop msg ((v <<< 8) ||| b) (i + 1) k

/-- `readparameter` from `parser.py`, given the already-resolved register
code and the payload `recv` returned (`none` = no response or invalid
frame).  `.ok none` is the logged skip ("no response" / "message is
invalid"); element accesses follow Python's short-circuit evaluation order
and are bounds-checked (`.error ()` = uncaught `IndexError`); the float
arithmetic `value * (±10 ** ±e)` is modelled exactly over `ℚ`. -/
def readparameter (parameter : Nat) (receivedMessage : Option (List Nat)) :
    Except Unit (Option ℚ) :=
  match receivedMessage with
  | none => .ok none
  | some msg =>
    match msg[0]? with
    | none => .error ()
    | some m0 =>
      if m0 ≠ 0x3f then .ok none
      else match msg[1]? with
        | none => .error ()
        | some m1 =>
          if m1 ≠ 0x10 then .ok none
          else match msg[2]? with
            | none => .error ()
            | some m2 =>
              if m2 ≠ parameter >>> 8 then .ok none
              else match msg[3]? with
                | none => .error ()
                | some m3 =>
                  if m3 ≠ parameter &&& 0xff then .ok none
                  else match msg[5]? with
                    | none => .error ()
                    | some n =>
                      match mantissaLoop msg 0 0 n with
                      | .error e => .error e
                      | .ok value =>
                        match msg[6]? with
                        | none => .error ()
                        | some b6 =>
                          let i : ℤ := (b6 &&& 0x3f : Nat)
                          let i := if b6 &&& 0x40 ≠ 0 then -i else i
                          let pw : ℚ := (10 : ℚ) ^ i
                          let pw := if b6 &&& 0x80 ≠ 0 then -pw else pw
                          .ok (some ((value : ℚ) * pw))

/-- The result key `run` computes for a spec: the spec string itself for
string specs; for integer specs the first registry name carrying that code,
otherwise Python `hex(code)`. -/
def keyOf (pm : List (String × Nat)) (parameter : PSpec) : String :=
  match parameter with
  | .str s => s
  | .int n =>
    match pm.find? (fun kv => kv.2 == n) with
    | some kv => kv.1
    | none => pyHex n

/-- Outcome of one `serial.write` call: success, a
`serial.SerialTimeoutException` (caught and logged inside `send`), or any
other I/O exception (uncaught, so it propagates out of `run`). -/
inductive WriteOutcome where
  | ok
  | timeoutCaught
  | ioErr
deriving DecidableEq

/-- The per-parameter loop of `run`.  The transport is modelled as
deterministic per request: `write` gives each exchange's `serial.write`
outcome and `responses` the payload `recv` yields, both as functions of the
register code.  An uncaught exception aborts the whole call (`.error ()`). -/
def runLoop (pm : List (String × Nat)) (write : Nat → WriteOutcome)
    (responses : Nat → Option (List Nat)) :
    List PSpec → List (String × ℚ) → Except Unit (List (String × ℚ))
  | [], values => .ok values
  | parameter :: rest, values =>
    match resolveParameterCode pm parameter with
    | none => runLoop pm write responses rest values
    | some code =>
      if write code = .ioErr then .error ()
      else
        match readparameter code (responses code) with
        | .error e => .error e
        | .ok none => runLoop pm write responses rest values
        | .ok (some value) =>
            runLoop pm write responses rest (dictInsert values (keyOf pm parameter) value)

/-- `run` from `parser.py`: an uninitialised or unopenable serial port
yields the empty mapping; otherwise the parameter loop runs and the
accumulated mapping is returned. -/
def run (pm : List (String × Nat)) (params : List PSpec) (openOk : Bool)
    (write : Nat → WriteOutcome) (responses : Nat → Option (List Nat)) :
    Except Unit (List (String × ℚ)) :=
  if openOk then runLoop pm write responses params [] else .ok []

/-- A spec fails non-fatally: it does not resolve, or its exchange produces
no decodable response (`readparameter` returns the skip marker). -/
def specFails (pm : List (String × Nat)) (responses : Nat → Option (List Nat))
    (spec : PSpec) : Prop :=
  ∀ code, resolveParameterCode pm spec = some code →
    readparameter code (responses code) = .ok none

/-- The N-byte big-endian unsigned integer of a byte list (claim C3's
mantissa reading). -/
def beBytes (l : List Nat) : Nat :=
  l.foldl (fun a b => 256 * a + b) 0

/-- The concrete well-formed response payload used by the witnesses:
echo for register `0x3C`, unit byte 0, 2-byte mantissa `0x04d2 = 1234`,
exponent byte `0x02`. -/
def respPayload : List Nat :=
  [0x3f, 0x10, 0x00, 0x3c, 0x00, 0x02, 0x02, 0x04, 0xd2]

/-- The rational `readparameter` decodes from `respPayload` (extracted by
evaluation, so witnesses can name it without normalising `ℚ`
arithmetic). -/
def respValue : ℚ :=
  (((readparameter 0x3C (some respPayload)).toOption).getD none).getD 0

/-! ### Bit-level helper lemmas -/

lemma shiftLeft_or_low (a b k : Nat) (hb : b < 2 ^ k) :
    a <<< k ||| b = a <<< k + b := by
  apply Nat.eq_of_testBit_eq
  intro j
  rw [show a <<< k + b = 2 ^ k * a + b by rw [Nat.shiftLeft_eq]; ring]
  rw [Nat.testBit_mul_pow_two_add a hb j, Nat.testBit_or, Nat.testBit_shiftLeft]
  by_cases hj : j < k
  · have : ¬ (j ≥ k) := by omega
    simp [hj, this]
  · have hk : k ≤ j := by omega
    have hbj : b < 2 ^ j := lt_of_lt_of_le hb (Nat.pow_le_pow_right (by norm_num) hk)
    simp [hj, hk, Nat.testBit_lt_two_pow hbj]

lemma shiftLeft_xor_low (a b k : Nat) (hb : b < 2 ^ k) :
    a <<< k ^^^ b = a <<< k + b := by
  apply Nat.eq_of_testBit_eq
  intro j
  rw [show a <<< k + b = 2 ^ k * a + b by rw [Nat.shiftLeft_eq]; ring]
  rw [Nat.testBit_mul_pow_two_add a hb j, Nat.testBit_xor, Nat.testBit_shiftLeft]
  by_cases hj : j < k
  · have : ¬ (j ≥ k) := by omega
    simp [hj, this]
  · have hk : k ≤ j := by omega
    have hbj : b < 2 ^ j := lt_of_lt_of_le hb (Nat.pow_le_pow_right (by norm_num) hk)
    simp [hj, hk, Nat.testBit_lt_two_pow hbj]

lemma shiftLeft_xor_distrib (a b k : Nat) :
    (a ^^^ b) <<< k = (a <<< k) ^^^ (b <<< k) := by
  apply Nat.eq_of_testBit_eq
  intro j
  rw [Nat.testBit_xor, Nat.testBit_shiftLeft, Nat.testBit_shiftLeft,
    Nat.testBit_shiftLeft, Nat.testBit_xor]
  by_cases hj : j ≥ k <;> simp [hj]

lemma sub_two_pow_eq_xor {t : Nat} (h1 : 2 ^ 16 ≤ t) (h2 : t < 2 ^ 17) :
    t - 2 ^ 16 = t ^^^ 2 ^ 16 := by
  have h1' : 65536 ≤ t := by norm_num at h1; exact h1
  have h2' : t < 131072 := by norm_num at h2; exact h2
  have hr : t - 2 ^ 16 < 2 ^ 16 := by norm_num; omega
  have ht : t = 1 <<< 16 + (t - 2 ^ 16) := by
    rw [Nat.shiftLeft_eq]; norm_num; omega
  calc t - 2 ^ 16
      = (1 <<< 16 ^^^ (t - 2 ^ 16)) ^^^ 1 <<< 16 := by
        rw [Nat.xor_comm (1 <<< 16), Nat.xor_assoc, Nat.xor_self, Nat.xor_zero]
    _ = t ^^^ 2 ^ 16 := by
        rw [shiftLeft_xor_low 1 _ 16 hr, ← ht]
        norm_num [Nat.shiftLeft_eq]

/-- `crcReduce` in its polynomial form: when bit 16 is set, XOR with the
full polynomial `0x11021` (which clears bit 16 again). -/
lemma crcReduce_eq_testBit (t : Nat) (ht : t < 2 ^ 17) :
    crcReduce t = if t.testBit 16 then t ^^^ 0x11021 else t := by
  unfold crcReduce
  have hand : t &&& 0x10000 = (t.testBit 16).toNat * 2 ^ 16 := by
    have := Nat.and_two_pow t 16
    norm_num at this ⊢
    exact this
  cases h16 : t.testBit 16 with
  | false =>
    simp only [h16, hand, Bool.toNat_false, Nat.zero_mul]
    norm_num
  | true =>
    have hge : 2 ^ 16 ≤ t := by
      by_contra hlt
      rw [Nat.testBit_lt_two_pow (by omega)] at h16
      simp at h16
    have hge' : 65536 ≤ t := by norm_num at hge; exact hge
    have ht' : t < 131072 := by norm_num at ht; exact ht
    have hmod : t &&& 0xffff = t % 2 ^ 16 := by
      have := Nat.and_pow_two_sub_one_eq_mod t 16
      norm_num at this ⊢
      exact this
    have hmodsub : t % 2 ^ 16 = t - 2 ^ 16 := by norm_num; omega
    simp only [h16, hand, Bool.toNat_true, Nat.one_mul, hmod, hmodsub]
    rw [sub_two_pow_eq_xor hge ht, Nat.xor_assoc]
    have hx : (2 : Nat) ^ 16 ^^^ 4129 = 69665 := by decide
    rw [hx]
    norm_num

lemma crcReduce_lt (t : Nat) (ht : t < 2 ^ 17) : crcReduce t < 2 ^ 16 := by
  have ht' : t < 131072 := by norm_num at ht; exact ht
  rw [crcReduce_eq_testBit t ht]
  cases h16 : t.testBit 16 with
  | false =>
    simp only [Bool.false_eq_true, if_false]
    rw [Nat.testBit_to_div_mod] at h16
    norm_num at h16 ⊢
    omega
  | true =>
    have hge : 2 ^ 16 ≤ t := by
      by_contra hlt
      rw [Nat.testBit_lt_two_pow (by omega)] at h16
      simp at h16
    have hge' : 65536 ≤ t := by norm_num at hge; exact hge
    simp only [if_true]
    have h1 : t ^^^ 2 ^ 16 < 2 ^ 16 := by
      rw [← sub_two_pow_eq_xor hge ht]
      norm_num
      omega
    have hx : (69665 : Nat) = 2 ^ 16 ^^^ 4129 := by decide
    calc t ^^^ 69665 = (t ^^^ 2 ^ 16) ^^^ 4129 := by
          rw [hx, ← Nat.xor_assoc]
      _ < 2 ^ 16 := Nat.xor_lt_two_pow h1 (by norm_num)

lemma crcReduce_xor (t u : Nat) (ht : t < 2 ^ 17) (hu : u < 2 ^ 16) :
    crcReduce (t ^^^ u) = crcReduce t ^^^ u := by
  have htu : t ^^^ u < 2 ^ 17 :=
    Nat.xor_lt_two_pow ht (lt_trans hu (by norm_num))
  rw [crcReduce_eq_testBit _ htu, crcReduce_eq_testBit t ht]
  have hu16 : u.testBit 16 = false := Nat.testBit_lt_two_pow hu
  have hbit : (t ^^^ u).testBit 16 = t.testBit 16 := by
    rw [Nat.testBit_xor, hu16, Bool.xor_false]
  rw [hbit]
  cases t.testBit 16 with
  | false => simp
  | true =>
    simp only [if_true]
    rw [Nat.xor_assoc, Nat.xor_comm u, ← Nat.xor_assoc]

lemma crcStepMask_eq_reduce (byte reg mask : Nat) :
    crcStepMask byte reg mask
      = crcReduce (if byte &&& mask ≠ 0 then reg <<< 1 ||| 1 else reg <<< 1) := by
  unfold crcStepMask crcReduce
  by_cases h : byte &&& mask ≠ 0 <;> simp [h]

lemma crcStepMask_zero (reg mask : Nat) :
    crcStepMask 0 reg mask = crcReduce (reg <<< 1) := by
  rw [crcStepMask_eq_reduce]
  norm_num

lemma crcStepMask_lt (byte reg mask : Nat) (h : reg < 2 ^ 16) :
    crcStepMask byte reg mask < 2 ^ 16 := by
  rw [crcStepMask_eq_reduce]
  apply crcReduce_lt
  have h' : reg < 65536 := by norm_num at h; exact h
  have h2 : reg <<< 1 = 2 * reg := by rw [Nat.shiftLeft_eq]; ring
  by_cases hb : byte &&& mask ≠ 0
  · rw [if_pos hb, shiftLeft_or_low reg 1 1 (by norm_num), h2]; norm_num; omega
  · rw [if_neg hb, h2]; norm_num; omega

/-- Key linearity step: shifting an extra 16-bit value `u` through one CRC
bit-iteration just doubles it and shifts in the new message bit. -/
lemma crcStepMask_inject (byte mask s u : Nat) (hs : s < 2 ^ 16) (hu : u < 2 ^ 15) :
    crcStepMask byte (s ^^^ u) mask
      = crcStepMask 0 s mask ^^^ (2 * u + (if byte &&& mask ≠ 0 then 1 else 0)) := by
  rw [crcStepMask_eq_reduce, crcStepMask_zero]
  have hs' : s < 65536 := by norm_num at hs; exact hs
  have hu'' : u < 32768 := by norm_num at hu; exact hu
  have hshift : s <<< 1 < 2 ^ 17 := by
    rw [Nat.shiftLeft_eq]
    norm_num
    omega
  have hdist : (s ^^^ u) <<< 1 = s <<< 1 ^^^ u <<< 1 := shiftLeft_xor_distrib s u 1
  by_cases hb : byte &&& mask ≠ 0
  · rw [if_pos hb, if_pos hb, hdist]
    have h1 : (s <<< 1 ^^^ u <<< 1) ||| 1 = (s <<< 1 ^^^ u <<< 1) ^^^ 1 := by
      have heven : (s <<< 1 ^^^ u <<< 1) = (s ^^^ u) <<< 1 := hdist.symm
      rw [heven, shiftLeft_or_low _ 1 1 (by norm_num),
        shiftLeft_xor_low _ 1 1 (by norm_num)]
    have h2 : u <<< 1 ^^^ 1 = 2 * u + 1 := by
      rw [shiftLeft_xor_low u 1 1 (by norm_num), Nat.shiftLeft_eq]; ring
    rw [h1, Nat.xor_assoc, h2]
    have hu1 : 2 * u + 1 < 2 ^ 16 := by norm_num; omega
    exact crcReduce_xor _ _ hshift hu1
  · rw [if_neg hb, if_neg hb, hdist]
    have h2 : u <<< 1 = 2 * u + 0 := by rw [Nat.shiftLeft_eq]; ring
    rw [h2]
    have hu1 : 2 * u + 0 < 2 ^ 16 := by norm_num; omega
    exact crcReduce_xor _ _ hshift hu1

/-- The value accumulated by shifting in bits, started from `u`, equals `u`
shifted up plus the value started from 0. -/
lemma bitFold_shift (byte : Nat) (masks : List Nat) :
    ∀ u : Nat,
      masks.foldl (fun a mask => 2 * a + (if byte &&& mask ≠ 0 then 1 else 0)) u
        = u * 2 ^ masks.length
          + masks.foldl (fun a mask => 2 * a + (if byte &&& mask ≠ 0 then 1 else 0)) 0 := by
  induction masks with
  | nil => intro u; simp
  | cons m ms ih =>
    intro u
    simp only [List.foldl_cons, List.length_cons]
    rw [ih (2 * u + _), ih (2 * 0 + _)]
    ring

lemma foldl_crcStepMask_lt (byte : Nat) (masks : List Nat) :
    ∀ s : Nat, s < 2 ^ 16 →
      masks.foldl (fun r mask => crcStepMask byte r mask) s < 2 ^ 16 := by
  induction masks with
  | nil => intro s hs; simpa
  | cons m ms ih =>
    intro s hs
    simp only [List.foldl_cons]
    exact ih _ (crcStepMask_lt byte s m hs)

/-- Linearity of a run of CRC bit-iterations: an extra value `u` XOR-ed into
the register emerges as `u` shifted left by the number of iterations, with
the processed message bits accumulated below it. -/
lemma foldl_crcStepMask_inject (byte : Nat) (masks : List Nat) :
    ∀ s u : Nat, s < 2 ^ 16 → masks.length ≤ 8 → u < 2 ^ (16 - masks.length) →
      masks.foldl (fun r mask => crcStepMask byte r mask) (s ^^^ u)
        = masks.foldl (fun r mask => crcStepMask 0 r mask) s
          ^^^ masks.foldl (fun a mask => 2 * a + (if byte &&& mask ≠ 0 then 1 else 0)) u := by
  induction masks with
  | nil => intro s u hs _ hu; simp
  | cons m ms ih =>
    intro s u hs hlen hu
    simp only [List.foldl_cons, List.length_cons] at *
    have hlen' : ms.length ≤ 8 := by omega
    have hu15 : u < 2 ^ 15 := by
      have hle : (2 : Nat) ^ (16 - (ms.length + 1)) ≤ 2 ^ 15 :=
        Nat.pow_le_pow_right (by norm_num) (by omega)
      exact lt_of_lt_of_le hu hle
    rw [crcStepMask_inject byte m s u hs hu15]
    have hstep : crcStepMask 0 s m < 2 ^ 16 := crcStepMask_lt 0 s m hs
    have hu' : 2 * u + (if byte &&& m ≠ 0 then 1 else 0) < 2 ^ (16 - ms.length) := by
      have hpow : (2 : Nat) ^ (16 - ms.length) = 2 * 2 ^ (16 - (ms.length + 1)) := by
        rw [← Nat.pow_succ']
        congr 1
        omega
      rw [hpow]
      set X := (2 : Nat) ^ (16 - (ms.length + 1)) with hX
      by_cases hb : byte &&& m ≠ 0
      · rw [if_pos hb]; omega
      · rw [if_neg hb]; omega
    exact ih (crcStepMask 0 s m) _ hstep hlen' hu'

/-- Fold of the bit-extraction over the eight masks recovers the byte. -/
lemma bitFold_byte (byte : Nat) (hb : byte < 256) :
    crcMasks.foldl (fun a mask => 2 * a + (if byte &&& mask ≠ 0 then 1 else 0)) 0 = byte := by
  revert hb
  revert byte
  decide

/-- Processing a byte with an extra value `u < 256` XOR-ed into the register:
`u` is shifted above the byte. -/
lemma crcByte_inject (s u byte : Nat) (hs : s < 2 ^ 16) (hu : u < 256) (hb : byte < 256) :
    crcByte (s ^^^ u) byte = crcByte s 0 ^^^ (u * 256 + byte) := by
  unfold crcByte
  have hlen : crcMasks.length ≤ 8 := by norm_num [crcMasks]
  have hu' : u < 2 ^ (16 - crcMasks.length) := by
    norm_num [crcMasks]
    omega
  have h := foldl_crcStepMask_inject byte crcMasks s u hs hlen hu'
  rw [h, bitFold_shift byte crcMasks u, bitFold_byte byte hb]
  have hb0 : ∀ mask, (0 : Nat) &&& mask = 0 := fun mask => Nat.zero_and mask
  have hfold : crcMasks.foldl (fun r mask => crcStepMask 0 r mask) s
      = crcMasks.foldl (fun r mask => crcStepMask 0 r mask) s := rfl
  norm_num [crcMasks]

lemma crcByte_lt (reg byte : Nat) (h : reg < 2 ^ 16) : crcByte reg byte < 2 ^ 16 :=
  foldl_crcStepMask_lt byte crcMasks reg h

lemma crc_1021_lt (message : List Nat) : crc_1021 message < 2 ^ 16 := by
  unfold crc_1021
  have : ∀ l : List Nat, ∀ s : Nat, s < 2 ^ 16 → l.foldl crcByte s < 2 ^ 16 := by
    intro l
    induction l with
    | nil => intro s hs; simpa
    | cons b bs ih => intro s hs; exact ih _ (crcByte_lt s b hs)
  exact this message 0 (by norm_num)

lemma crc_1021_append (m xs : List Nat) :
    crc_1021 (m ++ xs) = xs.foldl crcByte (crc_1021 m) := by
  unfold crc_1021
  rw [List.foldl_append]

/-- C1: the claim as frozen is false: re-checksumming `m` extended with the
two bytes of `crc_1021 m` itself does not always give zero.  The one-byte
message `[0x01]` is a counterexample (the result is `0x1020`). -/
theorem C1_counterexample :
    crc_1021 ([0x01] ++ [crc_1021 [0x01] >>> 8, crc_1021 [0x01] &&& 0xff]) ≠ 0 := by
  decide

/-- C1 (amended): the checksum that `send` actually appends is
`crc_1021 (m ++ [0, 0])` — the message extended with its two zero
placeholder bytes, exactly as `send` computes it before overwriting them.
Appending the two bytes of that checksum (high byte first) and
re-checksumming the extended sequence yields exactly zero, for every byte
sequence `m`. -/
theorem C1_crc_roundtrip (m : List Nat) :
    crc_1021 (m ++ [crc_1021 (m ++ [0, 0]) >>> 8, crc_1021 (m ++ [0, 0]) &&& 0xff]) = 0 := by
  have hr : crc_1021 m < 2 ^ 16 := crc_1021_lt m
  have hc2 : crc_1021 (m ++ [0, 0]) = crcByte (crcByte (crc_1021 m) 0) 0 := by
    rw [crc_1021_append]
    simp only [List.foldl_cons, List.foldl_nil]
  set r := crc_1021 m with hrdef
  set c := crc_1021 (m ++ [0, 0]) with hcdef
  have hc16 : c < 2 ^ 16 := crc_1021_lt (m ++ [0, 0])
  have hc16' : c < 65536 := by norm_num at hc16; exact hc16
  have hhi : c >>> 8 < 256 := by
    rw [Nat.shiftRight_eq_div_pow]
    norm_num
    omega
  have hloeq : c &&& 0xff = c % 256 := by
    have := Nat.and_pow_two_sub_one_eq_mod c 8
    norm_num at this ⊢
    exact this
  have hlo : c &&& 0xff < 256 := by rw [hloeq]; omega
  rw [crc_1021_append]
  simp only [List.foldl_cons, List.foldl_nil]
  have h1 : crcByte r (c >>> 8) = crcByte r 0 ^^^ (c >>> 8) := by
    have h := crcByte_inject r 0 (c >>> 8) hr (by norm_num) hhi
    rw [Nat.xor_zero] at h
    simpa using h
  have hs1 : crcByte r 0 < 2 ^ 16 := crcByte_lt r 0 hr
  have h2 : crcByte (crcByte r 0 ^^^ (c >>> 8)) (c &&& 0xff)
      = crcByte (crcByte r 0) 0 ^^^ ((c >>> 8) * 256 + (c &&& 0xff)) :=
    crcByte_inject (crcByte r 0) (c >>> 8) (c &&& 0xff) hs1 hhi hlo
  have h3 : (c >>> 8) * 256 + (c &&& 0xff) = c := by
    rw [Nat.shiftRight_eq_div_pow, hloeq]
    norm_num
    omega
  rw [h1, h2, h3, ← hc2, Nat.xor_self]

/-! ### Byte-stuffing lemmas -/

lemma unescapeTail_short (l : List Nat) (h : l.length ≤ 1) : unescapeTail l = [] := by
  match l with
  | [] => rfl
  | [x] => rfl
  | a :: b :: t => simp at h

lemma unescapeTail_cons_esc (v : Nat) (l : List Nat) :
    unescapeTail (0x1b :: v :: l) = (v ^^^ 0xff) :: unescapeTail l := by
  simp [unescapeTail]

lemma unescapeTail_cons_lit (x y : Nat) (l : List Nat) (hx : x ≠ 0x1b) :
    unescapeTail (x :: y :: l) = x :: unescapeTail (y :: l) := by
  simp [unescapeTail, hx]

/-- The index loop of `recv` never goes out of bounds: it always produces a
result, and that result is the unescape of the suffix starting at `i`
(omitting the frame's final byte). -/
lemma recvUnescape_eq_aux :
    ∀ (n : Nat) (msg : List Nat) (i : Nat), msg.length - i ≤ n →
      recvUnescape msg i = some (unescapeTail (msg.drop i)) := by
  intro n
  induction n with
  | zero =>
    intro msg i h
    rw [recvUnescape, dif_neg (by omega)]
    rw [List.drop_eq_nil_of_le (by omega)]
    rfl
  | succ n ih =>
    intro msg i h
    rw [recvUnescape]
    by_cases hg : i < msg.length - 1
    · rw [dif_pos hg]
      have hi : i < msg.length := by omega
      have hi1 : i + 1 < msg.length := by omega
      rw [List.getElem?_eq_getElem hi]
      dsimp only
      have hdrop : msg.drop i = msg[i] :: msg.drop (i + 1) := List.drop_eq_getElem_cons hi
      have hdrop1 : msg.drop (i + 1) = msg[i + 1] :: msg.drop (i + 2) :=
        List.drop_eq_getElem_cons hi1
      by_cases hb : msg[i] = 0x1b
      · rw [if_pos hb, List.getElem?_eq_getElem hi1, ih msg (i + 2) (by omega)]
        rw [hdrop, hdrop1, hb, unescapeTail_cons_esc]
        rfl
      · rw [if_neg hb, ih msg (i + 1) (by omega)]
        rw [hdrop, hdrop1, unescapeTail_cons_lit _ _ _ hb, ← hdrop1]
        rfl
    · rw [dif_neg hg]
      have hlen : (msg.drop i).length ≤ 1 := by
        rw [List.length_drop]; omega
      rw [unescapeTail_short _ hlen]

lemma recvUnescape_eq (msg : List Nat) (i : Nat) :
    recvUnescape msg i = some (unescapeTail (msg.drop i)) :=
  recvUnescape_eq_aux (msg.length - i) msg i le_rfl

lemma unescapeTail_escape (b : List Nat) :
    unescapeTail (escapeBytes b ++ [0x0d]) = b := by
  induction b with
  | nil => rfl
  | cons x rest ih =>
    by_cases hx : x ∈ escapes
    · simp only [escapeBytes, if_pos hx, List.cons_append]
      rw [unescapeTail_cons_esc, ih, Nat.xor_assoc, Nat.xor_self, Nat.xor_zero]
    · simp only [escapeBytes, if_neg hx, List.cons_append]
      have hx27 : x ≠ 0x1b := by
        intro he
        exact hx (he ▸ (by decide : (0x1b : Nat) ∈ escapes))
      obtain ⟨y, t, hyt⟩ : ∃ y t, escapeBytes rest ++ [0x0d] = y :: t := by
        cases hE : escapeBytes rest with
        | nil => exact ⟨0x0d, [], by simp⟩
        | cons a l2 => exact ⟨a, l2 ++ [0x0d], by simp⟩
      rw [hyt, unescapeTail_cons_lit x y t hx27, ← hyt, ih]

/-- C2: escape round-trip.  Escaping a byte sequence as `send` does, framing
it (here after the response start marker `0x40` and before the terminator
`0x0d`), and running `recv`'s unescape pass over the frame interior returns
exactly the original sequence. -/
theorem C2_escape_roundtrip (b : List Nat) :
    recvUnescape (0x40 :: (escapeBytes b ++ [0x0d])) 1 = some b := by
  rw [recvUnescape_eq]
  rw [show ((0x40 : Nat) :: (escapeBytes b ++ [0x0d])).drop 1 = escapeBytes b ++ [0x0d]
    from rfl]
  rw [unescapeTail_escape]

/-- C9: the unescape pass of `recv` never reads past the end of a completed
raw frame and never hits an index error, even when `0x1b` is the last byte
before the terminator: the bounds-checked loop always returns a result. -/
theorem C9_unescape_no_overread (frame : List Nat) (h : frame.getLast? = some 0x0d) :
    (recvUnescape frame 1).isSome = true := by
  rw [recvUnescape_eq]
  rfl

/-- C9 witness: the malformed frame `[0x40, 0x1b, 0x0d]`, whose escape byte
sits directly before the terminator, is processed without any out-of-bounds
read. -/
theorem C9_witness :
    ([0x40, 0x1b, 0x0d] : List Nat).getLast? = some 0x0d
      ∧ (recvUnescape [0x40, 0x1b, 0x0d] 1).isSome = true :=
  ⟨by decide, C9_unescape_no_overread [0x40, 0x1b, 0x0d] (by decide)⟩

/-! ### Request framing -/

/-- C5: the claim as frozen is false: the body `readparameter` sends is not
the four bytes `[function][sub-function][addr_hi][addr_lo]`; it contains an
extra constant byte `0x01` between the sub-function and the address, so the
actual frame differs from the spec-described one (shown at address
`0x3C`). -/
theorem C5_counterexample :
    readparameterRequest 0x3C ≠ specRequestFourByteBody 0x3C := by
  decide

/-- C5 (amended): for every register address the frame written to the
transport is exactly the unescaped prefix byte `0x80`, the escaped form of
`body ++ crc_hi ++ crc_lo` — where `body` is the FIVE bytes
`[0x3f][0x10][0x01][addr_hi][addr_lo]` (address big-endian) and the CRC is
`crc_1021` over the body plus two zero placeholder bytes — and the
terminator `0x0d`. -/
theorem C5_request_wire_format (p : Nat) :
    readparameterRequest p =
      (0x80 :: escapeBytes
        ([0x3f, 0x10, 0x01, p >>> 8, p &&& 0xff]
          ++ [crc_1021 ([0x3f, 0x10, 0x01, p >>> 8, p &&& 0xff] ++ [0, 0]) >>> 8,
              crc_1021 ([0x3f, 0x10, 0x01, p >>> 8, p &&& 0xff] ++ [0, 0]) &&& 0xff]))
        ++ [0x0d] := by
  unfold readparameterRequest send
  simp only [List.cons_append, List.nil_append, List.length_cons, List.length_nil,
    List.set]

/-! ### Parameter registry -/

lemma version_overrides_empty (key : String) :
    (VERSION_OVERRIDES.lookup key).getD [] = [] := by
  by_cases h1 : key == "402" <;> by_cases h2 : key == "403" <;>
    by_cases h3 : key == "603" <;>
      simp [VERSION_OVERRIDES, List.lookup, h1, h2, h3]

/-- C7: the claim as frozen is false: the all-digits string "012" is numeric
in the claim's sense, but Python `int("012", 0)` rejects the leading zero
(`ValueError`), so `_resolve_parameter_code` falls back to a name lookup and
(with the generic registry) returns nothing rather than the parsed
integer 12. -/
theorem C7_counterexample :
    pyIsDigit (pyStrip "012".toList) = true
      ∧ resolveParameterCode GENERIC_PARAMS (.str "012") ≠ some 12 := by
  constructor
  · decide
  · decide

/-- C7 (amended): an integer spec resolves to itself, and a string spec
whose stripped form Python `int(p, 0)` accepts (hex digits after `0x`, or a
decimal literal without a forbidden leading zero) resolves to the parsed
integer, with no registry lookup and regardless of registry contents. -/
theorem C7_numeric_bypass (pm : List (String × Nat)) :
    (∀ n : Nat, resolveParameterCode pm (.int n) = some n)
      ∧ ∀ (s : String) (v : Nat),
          (startsWith0x (pyStrip s.toList) || pyIsDigit (pyStrip s.toList)) = true →
          intBase0 (pyStrip s.toList) = some v →
          resolveParameterCode pm (.str s) = some v := by
  constructor
  · intro n
    rfl
  · intro s v hguard hparse
    unfold resolveParameterCode
    dsimp only
    rw [if_pos hguard, hparse]

/-- C7 witness: with an adversarial registry binding the very string
"0x3C" to 999, resolving the string "0x3C" and the integer 60 both yield
address 60. -/
theorem C7_witness :
    (startsWith0x (pyStrip "0x3C".toList) || pyIsDigit (pyStrip "0x3C".toList)) = true
      ∧ intBase0 (pyStrip "0x3C".toList) = some 60
      ∧ resolveParameterCode [("0x3C", 999)] (.str "0x3C") = some 60
      ∧ resolveParameterCode [("0x3C", 999)] (.int 60) = some 60 :=
  ⟨by decide, by decide,
    (C7_numeric_bypass [("0x3C", 999)]).2 "0x3C" 60 (by decide) (by decide),
    (C7_numeric_bypass [("0x3C", 999)]).1 60⟩

/-! ### Register decoding -/

lemma and_two_pow_ne_zero_iff (b i : Nat) : (b &&& 2 ^ i ≠ 0) ↔ b.testBit i = true := by
  rw [Nat.and_two_pow]
  cases h : b.testBit i with
  | false => simp
  | true =>
    have h2 : (2 : Nat) ^ i ≠ 0 := pow_ne_zero i (by norm_num)
    simp [h2]

lemma mantissaLoop_eq (msg : List Nat) (hbytes : ∀ b ∈ msg, b < 256) :
    ∀ (k i v : Nat), i + 7 + k ≤ msg.length →
      mantissaLoop msg v i k
        = .ok (((msg.drop (i + 7)).take k).foldl (fun a b => 256 * a + b) v) := by
  intro k
  induction k with
  | zero =>
    intro i v h
    simp [mantissaLoop]
  | succ k ih =>
    intro i v h
    have hi : i + 7 < msg.length := by omega
    unfold mantissaLoop
    rw [List.getElem?_eq_getElem hi]
    dsimp only
    rw [ih (i + 1) ((v <<< 8) ||| msg[i + 7]) (by omega)]
    rw [List.drop_eq_getElem_cons hi, List.take_succ_cons, List.foldl_cons]
    have hb : msg[i + 7] < 256 := hbytes _ (List.getElem_mem hi)
    have hor : (v <<< 8) ||| msg[i + 7] = 256 * v + msg[i + 7] := by
      rw [shiftLeft_or_low v _ 8 (by norm_num at hb ⊢; omega), Nat.shiftLeft_eq]
      ring
    rw [hor, show i + 1 + 7 = i + 7 + 1 from by omega]

/-- C3: register decoding.  For every validated payload echoing the request
(function `0x3f`, sub-function `0x10`, address big-endian) and long enough
to hold its mantissa, `readparameter` returns the value
`sign * mantissa * 10 ^ exponent` where the mantissa is the N-byte
big-endian integer at bytes `[7, 7+N)` with `N = byte 5`, the exponent is
the low 6 bits of byte 6 negated when bit 6 is set, and the sign flips when
bit 7 of byte 6 is set. -/
theorem C3_register_decoding (p N b6 : Nat) (msg : List Nat)
    (hbytes : ∀ b ∈ msg, b < 256)
    (h0 : msg[0]? = some 0x3f) (h1 : msg[1]? = some 0x10)
    (h2 : msg[2]? = some (p >>> 8)) (h3 : msg[3]? = some (p &&& 0xff))
    (h5 : msg[5]? = some N) (h6 : msg[6]? = some b6)
    (hlen : 7 + N ≤ msg.length) :
    readparameter p (some msg)
      = .ok (some ((if b6.testBit 7 then (-1 : ℚ) else 1)
          * (beBytes ((msg.drop 7).take N) : ℚ)
          * (10 : ℚ) ^ (if b6.testBit 6 then -((b6 % 64 : Nat) : ℤ)
              else ((b6 % 64 : Nat) : ℤ)))) := by
  unfold readparameter
  dsimp only
  rw [h0]
  dsimp only
  rw [if_neg (by norm_num)]
  rw [h1]
  dsimp only
  rw [if_neg (by norm_num)]
  rw [h2]
  dsimp only
  rw [if_neg (by simp)]
  rw [h3]
  dsimp only
  rw [if_neg (by simp)]
  rw [h5]
  dsimp only
  rw [mantissaLoop_eq msg hbytes N 0 0 (by omega)]
  dsimp only
  rw [h6]
  dsimp only
  have hmod : b6 &&& 0x3f = b6 % 64 := by
    have h := Nat.and_pow_two_sub_one_eq_mod b6 6
    norm_num at h ⊢
    exact h
  have h40 : (b6 &&& 0x40 ≠ 0) ↔ b6.testBit 6 = true := by
    have h := and_two_pow_ne_zero_iff b6 6
    norm_num at h ⊢
    exact h
  have h80 : (b6 &&& 0x80 ≠ 0) ↔ b6.testBit 7 = true := by
    have h := and_two_pow_ne_zero_iff b6 7
    norm_num at h ⊢
    exact h
  rw [show (0 : Nat) + 7 = 7 from rfl]
  have hbe : ((msg.drop 7).take N).foldl (fun a b => 256 * a + b) 0
      = beBytes ((msg.drop 7).take N) := rfl
  rw [hbe, hmod]
  congr 1
  congr 1
  by_cases ht6 : b6.testBit 6 = true
  · rw [if_pos (h40.mpr ht6), if_pos ht6]
    by_cases ht7 : b6.testBit 7 = true
    · rw [if_pos (h80.mpr ht7), if_pos ht7]
      ring
    · rw [if_neg (fun hc => ht7 (h80.mp hc)), if_neg ht7]
      ring
  · rw [if_neg (fun hc => ht6 (h40.mp hc)), if_neg ht6]
    by_cases ht7 : b6.testBit 7 = true
    · rw [if_pos (h80.mpr ht7), if_pos ht7]
      ring
    · rw [if_neg (fun hc => ht7 (h80.mp hc)), if_neg ht7]
      ring

/-- C3 witness: the payload echoing register `0x3C` with 2-byte mantissa
`0x04d2 = 1234` and exponent byte `0x02` satisfies every hypothesis, and
the theorem yields its decoded value (`1234 * 10^2`). -/
theorem C3_witness :
    (∀ b ∈ respPayload, b < 256)
      ∧ respPayload[5]? = some 2
      ∧ 7 + 2 ≤ respPayload.length
      ∧ readparameter 0x3C (some respPayload)
          = .ok (some ((if (2 : Nat).testBit 7 then (-1 : ℚ) else 1)
              * (beBytes ((respPayload.drop 7).take 2) : ℚ)
              * (10 : ℚ) ^ (if (2 : Nat).testBit 6 then -((2 % 64 : Nat) : ℤ)
                  else ((2 % 64 : Nat) : ℤ)))) :=
  ⟨by decide, by decide, by decide,
    C3_register_decoding 0x3C 2 2 respPayload (by decide) (by decide) (by decide)
      (by decide) (by decide) (by decide) (by decide) (by decide)⟩

/-! ### Result keys and register codes -/

/-- Every name of the generic table resolves, as a string spec, to its own
code (in particular no generic name parses as a number). -/
lemma resolve_generic_entry :
    ∀ kv ∈ GENERIC_PARAMS,
      resolveParameterCode GENERIC_PARAMS (.str kv.1) = some kv.2 := by
  decide

lemma hexDigitVal_hexDigitCh : ∀ d < 16, hexDigitVal (hexDigitCh d) = some d := by
  decide

lemma parseHexDigits_append_one (xs : List Char) (c : Char) :
    parseHexDigits (xs ++ [c])
      = match parseHexDigits xs, hexDigitVal c with
        | some a, some d => some (16 * a + d)
        | _, _ => none := by
  unfold parseHexDigits
  rw [List.foldl_append]
  rfl

lemma parseHexDigits_hexChars (n : Nat) : parseHexDigits (hexChars n) = some n := by
  induction n using Nat.strong_induction_on with
  | _ n ih =>
    rw [hexChars]
    by_cases h : n < 16
    · rw [dif_pos h]
      rw [show [hexDigitCh n] = [] ++ [hexDigitCh n] from rfl]
      rw [parseHexDigits_append_one, hexDigitVal_hexDigitCh n h,
        show parseHexDigits [] = some 0 from rfl]
      simp
    · rw [dif_neg h]
      rw [parseHexDigits_append_one, ih (n / 16) (Nat.div_lt_self (by omega) (by norm_num))]
      rw [hexDigitVal_hexDigitCh (n % 16) (Nat.mod_lt _ (by norm_num))]
      dsimp only
      congr 1
      omega

lemma hexChars_ne_nil (n : Nat) : hexChars n ≠ [] := by
  rw [hexChars]
  by_cases h : n < 16
  · rw [dif_pos h]; simp
  · rw [dif_neg h]; simp

lemma hexChars_all_digits (n : Nat) : ∀ c ∈ hexChars n, hexDigitVal c ≠ none := by
  induction n using Nat.strong_induction_on with
  | _ n ih =>
    intro c hc
    rw [hexChars] at hc
    by_cases h : n < 16
    · rw [dif_pos h] at hc
      rcases List.mem_singleton.mp hc with rfl
      rw [hexDigitVal_hexDigitCh n h]
      simp
    · rw [dif_neg h] at hc
      rcases List.mem_append.mp hc with hl | hr
      · exact ih (n / 16) (Nat.div_lt_self (by omega) (by norm_num)) c hl
      · rcases List.mem_singleton.mp hr with rfl
        rw [hexDigitVal_hexDigitCh (n % 16) (Nat.mod_lt _ (by norm_num))]
        simp

lemma not_space_of_hexDigit (c : Char) (h : hexDigitVal c ≠ none) :
    pyIsSpace c = false := by
  by_contra hsp
  have hsp' : pyIsSpace c = true := by
    cases hb : pyIsSpace c
    · exact absurd hb hsp
    · rfl
  simp only [pyIsSpace, Bool.or_eq_true, beq_iff_eq] at hsp'
  rcases hsp' with ((((rfl | rfl) | rfl) | rfl) | rfl) | rfl <;> exact h (by decide)

lemma pyStrip_eq_self (l : List Char) (h : ∀ c ∈ l, pyIsSpace c = false) :
    pyStrip l = l := by
  have hdrop : ∀ (m : List Char), (∀ c ∈ m, pyIsSpace c = false) →
      m.dropWhile pyIsSpace = m := by
    intro m hm
    cases m with
    | nil => rfl
    | cons a t =>
      rw [List.dropWhile_cons]
      simp [hm a (List.mem_cons_self a t)]
  unfold pyStrip
  rw [hdrop l h, hdrop l.reverse (fun c hc => h c (List.mem_reverse.mp hc)),
    List.reverse_reverse]

/-- The hex rendering of any code resolves, as a string spec, back to the
code — with any registry. -/
lemma resolve_pyHex (pm : List (String × Nat)) (n : Nat) :
    resolveParameterCode pm (.str (pyHex n)) = some n := by
  unfold resolveParameterCode pyHex
  dsimp only
  have htl : (String.mk ('0' :: 'x' :: hexChars n)).toList = '0' :: 'x' :: hexChars n :=
    rfl
  rw [htl]
  have hns : ∀ c ∈ ('0' :: 'x' :: hexChars n), pyIsSpace c = false := by
    intro c hc
    rcases List.mem_cons.mp hc with rfl | hc
    · decide
    rcases List.mem_cons.mp hc with rfl | hc
    · decide
    exact not_space_of_hexDigit c (hexChars_all_digits n c hc)
  rw [pyStrip_eq_self _ hns]
  rw [show startsWith0x ('0' :: 'x' :: hexChars n) = true from rfl, Bool.true_or]
  rw [if_pos rfl]
  have hbase : intBase0 ('0' :: 'x' :: hexChars n)
      = if (hexChars n).isEmpty then none else parseHexDigits (hexChars n) := rfl
  rw [hbase, if_neg (by simp [List.isEmpty_iff, hexChars_ne_nil n]),
    parseHexDigits_hexChars n]

/-- The string spec equal to an integer spec's result key resolves to that
integer's code (with the generic registry). -/
lemma resolve_keyOf_int (n : Nat) :
    resolveParameterCode GENERIC_PARAMS (.str (keyOf GENERIC_PARAMS (.int n)))
      = some n := by
  unfold keyOf
  dsimp only
  cases hf : GENERIC_PARAMS.find? (fun kv => kv.2 == n) with
  | none => exact resolve_pyHex GENERIC_PARAMS n
  | some kv =>
    have hmem : kv ∈ GENERIC_PARAMS := List.mem_of_find?_eq_some hf
    have hpred := List.find?_some hf
    have hkv : kv.2 = n := by simpa using hpred
    have h := resolve_generic_entry kv hmem
    rw [hkv] at h
    exact h

/-- Two specs sharing a result key resolve to the same register code (with
the generic registry): keys never alias across distinct codes. -/
lemma keyOf_eq_code_eq (p1 p2 : PSpec)
    (h : keyOf GENERIC_PARAMS p1 = keyOf GENERIC_PARAMS p2) :
    resolveParameterCode GENERIC_PARAMS p1 = resolveParameterCode GENERIC_PARAMS p2 := by
  cases p1 with
  | str s1 =>
    cases p2 with
    | str s2 =>
      have hs : s1 = s2 := h
      rw [hs]
    | int n =>
      have hs : s1 = keyOf GENERIC_PARAMS (.int n) := h
      rw [hs, resolve_keyOf_int n]
      rfl
  | int n1 =>
    cases p2 with
    | str s2 =>
      have hs : s2 = keyOf GENERIC_PARAMS (.int n1) := h.symm
      rw [hs, resolve_keyOf_int n1]
      rfl
    | int n2 =>
      have e1 := resolve_keyOf_int n1
      rw [h] at e1
      have e2 := resolve_keyOf_int n2
      show some n1 = some n2
      exact e1.symm.trans e2

/-! ### The transaction loop -/

lemma not_mem_keys_dictInsert {α : Type} (l : List (String × α)) (k k' : String)
    (v : α) (hne : k ≠ k') (h : k ∉ l.map Prod.fst) :
    k ∉ (dictInsert l k' v).map Prod.fst := by
  induction l with
  | nil => simpa [dictInsert] using hne
  | cons kv rest ih =>
    obtain ⟨a, b⟩ := kv
    simp only [List.map_cons, List.mem_cons, not_or] at h
    unfold dictInsert
    by_cases he : a = k'
    · rw [if_pos he]
      simp only [List.map_cons, List.mem_cons, not_or]
      exact ⟨h.1, h.2⟩
    · rw [if_neg he]
      simp only [List.map_cons, List.mem_cons, not_or]
      exact ⟨h.1, ih h.2⟩

lemma runLoop_not_mem_key (write : Nat → WriteOutcome)
    (responses : Nat → Option (List Nat)) (spec : PSpec)
    (hfail : specFails GENERIC_PARAMS responses spec) :
    ∀ (params : List PSpec) (values m : List (String × ℚ)),
      runLoop GENERIC_PARAMS write responses params values = .ok m →
      keyOf GENERIC_PARAMS spec ∉ values.map Prod.fst →
      keyOf GENERIC_PARAMS spec ∉ m.map Prod.fst := by
  intro params
  induction params with
  | nil =>
    intro values m h hv
    injection h with h'
    rw [← h']
    exact hv
  | cons p rest ih =>
    intro values m h hv
    unfold runLoop at h
    cases hres : resolveParameterCode GENERIC_PARAMS p with
    | none =>
      rw [hres] at h
      exact ih values m h hv
    | some code =>
      rw [hres] at h
      dsimp only at h
      by_cases hw : write code = WriteOutcome.ioErr
      · rw [if_pos hw] at h
        cases h
      · rw [if_neg hw] at h
        cases hread : readparameter code (responses code) with
        | error e =>
          rw [hread] at h
          cases h
        | ok vo =>
          rw [hread] at h
          cases vo with
          | none => exact ih values m h hv
          | some value =>
            apply ih _ m h
            have hkne : keyOf GENERIC_PARAMS spec ≠ keyOf GENERIC_PARAMS p := by
              intro hkeq
              have hcode := keyOf_eq_code_eq spec p hkeq
              rw [hres] at hcode
              have hnone := hfail code hcode
              rw [hread] at hnone
              cases hnone
            exact not_mem_keys_dictInsert values _ _ value hkne hv

/-- C4: missing-on-failure.  Whenever `run` returns a mapping, a spec that
failed at any non-fatal stage — name resolution, request/response exchange
(timeout), checksum/framing (an invalid frame makes `recv` return nothing),
or echo-mismatch — has no entry under its key in the result: absence, never
a null or zero placeholder. -/
theorem C4_missing_on_failure (params : List PSpec) (openOk : Bool)
    (write : Nat → WriteOutcome) (responses : Nat → Option (List Nat))
    (m : List (String × ℚ)) (spec : PSpec)
    (hmem : spec ∈ params)
    (hrun : run GENERIC_PARAMS params openOk write responses = .ok m)
    (hfail : specFails GENERIC_PARAMS responses spec) :
    keyOf GENERIC_PARAMS spec ∉ m.map Prod.fst := by
  unfold run at hrun
  by_cases ho : openOk = true
  · rw [if_pos ho] at hrun
    exact runLoop_not_mem_key write responses spec hfail params [] m hrun (by simp)
  · rw [if_neg ho] at hrun
    injection hrun with h'
    rw [← h']
    simp

/-- C4 witness: requesting `energy` against a transport that never responds
yields the empty mapping, with no entry under `energy`. -/
theorem C4_witness :
    (PSpec.str "energy") ∈ [PSpec.str "energy"]
      ∧ run GENERIC_PARAMS [.str "energy"] true (fun _ => .ok) (fun _ => none) = .ok []
      ∧ specFails GENERIC_PARAMS (fun _ => none) (.str "energy")
      ∧ keyOf GENERIC_PARAMS (.str "energy") ∉ ([] : List (String × ℚ)).map Prod.fst :=
  ⟨List.mem_cons_self _ _, by rfl, fun code _ => rfl,
    C4_missing_on_failure [.str "energy"] true (fun _ => .ok) (fun _ => none) []
      (.str "energy") (List.mem_cons_self _ _) (by rfl) (fun code _ => rfl)⟩

lemma runLoop_error_iff (pm : List (String × Nat)) (write : Nat → WriteOutcome)
    (responses : Nat → Option (List Nat)) :
    ∀ (params : List PSpec) (values : List (String × ℚ)),
      (runLoop pm write responses params values = .error ()) ↔
        ∃ spec ∈ params, ∃ code,
          resolveParameterCode pm spec = some code ∧
          (write code = .ioErr ∨ readparameter code (responses code) = .error ()) := by
  intro params
  induction params with
  | nil =>
    intro values
    simp [runLoop]
  | cons p rest ih =>
    intro values
    unfold runLoop
    cases hres : resolveParameterCode pm p with
    | none =>
      rw [ih values]
      constructor
      · rintro ⟨spec, hspec, code, hcode, hor⟩
        exact ⟨spec, List.mem_cons_of_mem p hspec, code, hcode, hor⟩
      · rintro ⟨spec, hspec, code, hcode, hor⟩
        rcases List.mem_cons.mp hspec with rfl | hmem
        · rw [hres] at hcode
          cases hcode
        · exact ⟨spec, hmem, code, hcode, hor⟩
    | some code =>
      dsimp only
      by_cases hw : write code = WriteOutcome.ioErr
      · rw [if_pos hw]
        constructor
        · intro _
          exact ⟨p, List.mem_cons_self p rest, code, hres, Or.inl hw⟩
        · intro _
          rfl
      · rw [if_neg hw]
        cases hread : readparameter code (responses code) with
        | error e =>
          cases e
          constructor
          · intro _
            exact ⟨p, List.mem_cons_self p rest, code, hres, Or.inr hread⟩
          · intro _
            rfl
        | ok vo =>
          have hnotp : ∀ code', resolveParameterCode pm p = some code' →
              ¬(write code' = .ioErr ∨ readparameter code' (responses code') = .error ()) := by
            intro code' hcode'
            rw [hres] at hcode'
            injection hcode' with hc
            subst hc
            rintro (hcontra | hcontra)
            · exact hw hcontra
            · rw [hread] at hcontra
              cases hcontra
          have hiff : ∀ values' : List (String × ℚ),
              (runLoop pm write responses rest values' = .error ()) ↔
                ∃ spec ∈ p :: rest, ∃ code',
                  resolveParameterCode pm spec = some code' ∧
                  (write code' = .ioErr ∨ readparameter code' (responses code') = .error ()) := by
            intro values'
            rw [ih values']
            constructor
            · rintro ⟨spec, hspec, code', hcode', hor⟩
              exact ⟨spec, List.mem_cons_of_mem p hspec, code', hcode', hor⟩
            · rintro ⟨spec, hspec, code', hcode', hor⟩
              rcases List.mem_cons.mp hspec with rfl | hmem
              · exact absurd hor (hnotp code' hcode')
              · exact ⟨spec, hmem, code', hcode', hor⟩
          cases vo with
          | none => exact hiff values
          | some value => exact hiff (dictInsert values (keyOf pm p) value)

/-- C6: the claim as frozen is false on the open-failure half: when the
transport cannot be opened, `run` does not propagate the error to the
caller — it returns the empty mapping (here even though every write would
fail fatally). -/
theorem C6_counterexample :
    run GENERIC_PARAMS [.str "energy"] false (fun _ => .ioErr) (fun _ => none) = .ok []
      ∧ run GENERIC_PARAMS [.str "energy"] false (fun _ => .ioErr) (fun _ => none)
          ≠ .error () := by
  constructor
  · rfl
  · intro hcontra
    cases hcontra

/-- C6 (amended): `run` always returns a (possibly empty) mapping, except
that with the transport open it aborts with a propagated exception exactly
when some resolvable spec's exchange hits a write I/O error (a non-timeout
`serial.write` failure) or an uncaught decode `IndexError` on a malformed
short payload; a transport open failure is caught and yields the empty
mapping instead of propagating. -/
theorem C6_total_except_io (pm : List (String × Nat)) (params : List PSpec)
    (openOk : Bool) (write : Nat → WriteOutcome)
    (responses : Nat → Option (List Nat)) :
    (run pm params openOk write responses = .error ()) ↔
      (openOk = true ∧ ∃ spec ∈ params, ∃ code,
        resolveParameterCode pm spec = some code ∧
        (write code = .ioErr ∨ readparameter code (responses code) = .error ())) := by
  unfold run
  by_cases ho : openOk = true
  · rw [if_pos ho, runLoop_error_iff]
    simp [ho]
  · rw [if_neg ho]
    constructor
    · intro hcontra
      cases hcontra
    · rintro ⟨hopen, _⟩
      exact absurd hopen ho

lemma lookup_dictInsert_self {α : Type} (l : List (String × α)) (k : String) (v : α) :
    (dictInsert l k v).lookup k = some v := by
  induction l with
  | nil => simp [dictInsert, List.lookup]
  | cons kv rest ih =>
    obtain ⟨a, b⟩ := kv
    unfold dictInsert
    by_cases he : a = k
    · rw [if_pos he]
      subst he
      simp [List.lookup]
    · rw [if_neg he]
      have hba : (k == a) = false := by
        rw [beq_eq_false_iff_ne]
        exact fun hh => he hh.symm
      simp [List.lookup, hba, ih]

lemma lookup_dictInsert_ne {α : Type} (l : List (String × α)) (k k' : String)
    (v : α) (hne : k ≠ k') :
    (dictInsert l k' v).lookup k = l.lookup k := by
  induction l with
  | nil =>
    have hkk : (k == k') = false := beq_eq_false_iff_ne.mpr hne
    simp [dictInsert, List.lookup, hkk]
  | cons kv rest ih =>
    obtain ⟨a, b⟩ := kv
    unfold dictInsert
    by_cases he : a = k'
    · rw [if_pos he]
      subst he
      have hkk : (k == a) = false := beq_eq_false_iff_ne.mpr hne
      simp [List.lookup, hkk]
    · rw [if_neg he]
      by_cases hka : (k == a) = true
      · simp [List.lookup, hka]
      · have hka' : (k == a) = false := by
          cases hb : (k == a)
          · rfl
          · exact absurd hb hka
        simp [List.lookup, hka', ih]

lemma runLoop_lookup_preserved (write : Nat → WriteOutcome)
    (responses : Nat → Option (List Nat)) (spec : PSpec) (code : Nat) (v : ℚ)
    (hres : resolveParameterCode GENERIC_PARAMS spec = some code)
    (hread : readparameter code (responses code) = .ok (some v)) :
    ∀ (params : List PSpec) (values m : List (String × ℚ)),
      runLoop GENERIC_PARAMS write responses params values = .ok m →
      values.lookup (keyOf GENERIC_PARAMS spec) = some v →
      m.lookup (keyOf GENERIC_PARAMS spec) = some v := by
  intro params
  induction params with
  | nil =>
    intro values m h hv
    injection h with h'
    rw [← h']
    exact hv
  | cons p rest ih =>
    intro values m h hv
    unfold runLoop at h
    cases hres' : resolveParameterCode GENERIC_PARAMS p with
    | none =>
      rw [hres'] at h
      exact ih values m h hv
    | some code' =>
      rw [hres'] at h
      dsimp only at h
      by_cases hw : write code' = WriteOutcome.ioErr
      · rw [if_pos hw] at h
        cases h
      · rw [if_neg hw] at h
        cases hread' : readparameter code' (responses code') with
        | error e =>
          rw [hread'] at h
          cases h
        | ok vo =>
          rw [hread'] at h
          cases vo with
          | none => exact ih values m h hv
          | some value =>
            apply ih _ m h
            by_cases hk : keyOf GENERIC_PARAMS p = keyOf GENERIC_PARAMS spec
            · have hcode := keyOf_eq_code_eq p spec hk
              rw [hres', hres] at hcode
              injection hcode with hc
              subst hc
              rw [hread'] at hread
              injection hread with h1
              injection h1 with h2
              subst h2
              rw [hk]
              exact lookup_dictInsert_self values _ _
            · rw [lookup_dictInsert_ne values _ _ value (fun hh => hk hh.symm)]
              exact hv

lemma runLoop_success_key (write : Nat → WriteOutcome)
    (responses : Nat → Option (List Nat)) (spec : PSpec) (code : Nat) (v : ℚ)
    (hres : resolveParameterCode GENERIC_PARAMS spec = some code)
    (hread : readparameter code (responses code) = .ok (some v)) :
    ∀ (params : List PSpec) (values m : List (String × ℚ)),
      runLoop GENERIC_PARAMS write responses params values = .ok m →
      spec ∈ params →
      m.lookup (keyOf GENERIC_PARAMS spec) = some v := by
  intro params
  induction params with
  | nil =>
    intro values m h hmem
    cases hmem
  | cons p rest ih =>
    intro values m h hmem
    unfold runLoop at h
    rcases List.mem_cons.mp hmem with rfl | hmem'
    · rw [hres] at h
      dsimp only at h
      by_cases hw : write code = WriteOutcome.ioErr
      · rw [if_pos hw] at h
        cases h
      · rw [if_neg hw] at h
        rw [hread] at h
        exact runLoop_lookup_preserved write responses spec code v hres hread rest _ m h
          (lookup_dictInsert_self values _ _)
    · cases hres' : resolveParameterCode GENERIC_PARAMS p with
      | none =>
        rw [hres'] at h
        exact ih values m h hmem'
      | some code' =>
        rw [hres'] at h
        dsimp only at h
        by_cases hw : write code' = WriteOutcome.ioErr
        · rw [if_pos hw] at h
          cases h
        · rw [if_neg hw] at h
          cases hread' : readparameter code' (responses code') with
          | error e =>
            rw [hread'] at h
            cases h
          | ok vo =>
            rw [hread'] at h
            cases vo with
            | none => exact ih values m h hmem'
            | some value => exact ih _ m h hmem'

/-- C8: the claim as frozen is false: a numeric STRING spec keeps the spec
string itself as the result key even when the resolved address carries a
symbolic name.  Requesting the string "0x3c" (address `0x3C`, named
`energy` in the table) against a well-formed response stores the value
under "0x3c", not under "energy". -/
theorem C8_counterexample :
    ((run GENERIC_PARAMS [.str "0x3c"] true (fun _ => .ok)
        (fun _ => some respPayload)).toOption.getD []).map Prod.fst = ["0x3c"] := by
  rfl

/-- C8 (amended): for every successfully read spec, a string spec's value
is inserted under the spec string itself, and an integer spec's value under
the first symbolic name mapped to its code in the table when one exists and
otherwise under the hex text of the code — `keyOf` — and the returned
mapping carries the decoded value under that key. -/
theorem C8_result_key (params : List PSpec) (write : Nat → WriteOutcome)
    (responses : Nat → Option (List Nat)) (m : List (String × ℚ))
    (spec : PSpec) (code : Nat) (v : ℚ)
    (hmem : spec ∈ params)
    (hres : resolveParameterCode GENERIC_PARAMS spec = some code)
    (hread : readparameter code (responses code) = .ok (some v))
    (hrun : run GENERIC_PARAMS params true write responses = .ok m) :
    m.lookup (keyOf GENERIC_PARAMS spec) = some v := by
  unfold run at hrun
  rw [if_pos rfl] at hrun
  exact runLoop_success_key write responses spec code v hres hread params [] m hrun hmem

/-- C8 witness: reading the integer spec `60` against a well-formed response
stores its decoded value under the symbolic name `energy`. -/
theorem C8_witness :
    (PSpec.int 60) ∈ [PSpec.int 60]
      ∧ resolveParameterCode GENERIC_PARAMS (.int 60) = some 60
      ∧ readparameter 60 ((fun _ => some respPayload) 60) = .ok (some respValue)
      ∧ run GENERIC_PARAMS [.int 60] true (fun _ => .ok) (fun _ => some respPayload)
          = .ok [("energy", respValue)]
      ∧ ([("energy", respValue)] : List (String × ℚ)).lookup
          (keyOf GENERIC_PARAMS (.int 60)) = some respValue :=
  ⟨List.mem_cons_self _ _, rfl, rfl, rfl,
    C8_result_key [.int 60] (fun _ => .ok) (fun _ => some respPayload)
      [("energy", respValue)] (.int 60) 60 respValue (List.mem_cons_self _ _) rfl rfl rfl⟩

/-- C10: building the parameter map never fails and, because every entry of
`VERSION_OVERRIDES` is empty, yields exactly the generic table for every
version identifier — known, unknown (e.g. "999"), absent or empty — so name
resolution for an unknown model behaves identically to the generic/default
model. -/
theorem C10_unknown_model_fallback (version : Option String) :
    param_map_for_version version = GENERIC_PARAMS := by
  simp only [param_map_for_version, version_overrides_empty]
  rfl

end Kamstrup
